import Mathlib

/-! Verification development.

Verification of the form validation engine (westbrookdaniel/form).

The development shallowly embeds the TypeScript source:
- `src/adaptors/standard.ts` (`standardAdaptor`): pure validator-chain
  execution over a JavaScript-object model (`JSObj`), plus a small heap
  model (`Heap`) used to state the defensive-clone frame property.
- `src/index.ts` (`class Form`): the session state, `hasErrors`,
  `assert`, `reset`, the `handle` submit wrapper, and an event-level
  model of the overlapping-`validate` abort-controller protocol.

JavaScript values relevant to validators are `null`/`undefined`,
booleans and strings; objects are association lists from string keys
to values, with in-place update on assignment (matching JS property
semantics and enumeration order).
-/

set_option autoImplicit false

/-- A JavaScript value as far as the validation engine observes it:
validators return `Promise<string | null | undefined | boolean>` and
form-data values are compared and copied opaquely. `vNull` stands for
both `null` and `undefined` (both are falsy and both read back from a
missing property). -/
inductive JSVal where
  | vNull
  | vBool (b : Bool)
  | vStr (s : String)
deriving DecidableEq, Repr

/-- JavaScript truthiness on the values above: `null`/`undefined`,
`false` and the empty string are falsy; `true` and non-empty strings
are truthy. This models the `if (error)` tests in the source. -/
def JSVal.truthy : JSVal → Bool
  | .vNull => false
  | .vBool b => b
  | .vStr s => decide (s ≠ "")

/-- The string carried by a truthy non-`true` validator result (by the
declared validator type it is necessarily a non-empty string). -/
def JSVal.asString : JSVal → String
  | .vStr s => s
  | _ => ""

/-- Association-list lookup by string key; models JS property access
(first binding wins; JS objects have unique keys). -/
def alistLookup {β : Type} : List (String × β) → String → Option β
  | [], _ => none
  | p :: rest, k => if p.1 = k then some p.2 else alistLookup rest k

/-- Association-list assignment; models JS property write: an existing
key is updated in place (keeping enumeration order), a new key is
appended. -/
def alistSet {β : Type} : List (String × β) → String → β → List (String × β)
  | [], k, v => [(k, v)]
  | p :: rest, k, v => if p.1 = k then (k, v) :: rest else p :: alistSet rest k v

/-- A JavaScript object holding form data: string keys to values. -/
abbrev JSObj : Type := List (String × JSVal)

/-- Property read `o[k]`: a missing property reads as `undefined`. -/
def JSObj.get (o : JSObj) (k : String) : JSVal :=
  (alistLookup o k).getD .vNull

/-- Property write `o[k] = v`. -/
def JSObj.set (o : JSObj) (k : String) (v : JSVal) : JSObj :=
  alistSet o k v

/-- Models `Object.assign(target, source)`: copy every enumerable property of
`source` onto `target`, in order. -/
def objAssign (target src : JSObj) : JSObj :=
  src.foldl (fun t p => t.set p.1 p.2) target

/-- Truthiness of a possibly-absent string: models `!!x` where `x` is
`undefined`/`null` or a string (the empty string is falsy). Used for
`!state.fieldErrors[field]` and `!!this.formError`. -/
def optStrTruthy : Option String → Bool
  | none => false
  | some s => decide (s ≠ "")

/-- Outcome of invoking one validator: it returns a JS value, or it
throws / its promise rejects. -/
inductive VOut where
  | ret (v : JSVal)
  | thrown
deriving DecidableEq, Repr

/-- A validator, as the engine sees it: it receives the shared data
snapshot and produces an outcome together with the (possibly mutated
in place) snapshot. Mutation models the coercion side channel the
source documents (`(form) => form.name === "" && (form.name = null)`). -/
def Validator : Type := JSObj → VOut × JSObj

/-- The structured result the adaptor returns to the form session:
`{ fieldErrors, data, formError }`. `formError = none` models `null`. -/
structure AdState where
  fieldErrors : List (String × String)
  data : JSObj
  formError : Option String
deriving DecidableEq, Repr

/-- The per-field validator loop of `standardAdaptor.validate`:

    for (const v of validators) {
      try {
        const error = await v(d);
        if (error) {
          if (error === true) {
            state.fieldErrors[field] = defaultMessage(field);
          } else {
            state.fieldErrors[field] = error;
          }
          break;
        }
      } catch (e) {
        console.error(e);
        state.fieldErrors[field] = defaultMessage(field);
        break;
      }
    }

Returns the recorded error (if any) and the final snapshot. -/
def runFieldChain (dm : String → String) (field : String) :
    List Validator → JSObj → Option String × JSObj
  | [], d => (none, d)
  | v :: vs, d =>
    match v d with
    | (.thrown, d') => (some (dm field), d')
    | (.ret r, d') =>
      if r.truthy then
        (some (if r = .vBool true then dm field else r.asString), d')
      else
        runFieldChain dm field vs d'

/-- The body of the field loop for one configured field: run the
field's chain, record the error if one was produced, then
`if (!state.fieldErrors[field]) state.data[field] = d[field]` — the
copy happens exactly when the recorded message for the field is absent
or falsy (the empty string). -/
def fieldStep (dm : String → String) (field : String) (validators : List Validator)
    (st : AdState) (d : JSObj) : AdState × JSObj :=
  let p := runFieldChain dm field validators d
  let st' :=
    match p.1 with
    | some e => { st with fieldErrors := alistSet st.fieldErrors field e }
    | none => st
  let st'' :=
    if optStrTruthy (alistLookup st'.fieldErrors field) then st'
    else { st' with data := st'.data.set field (p.2.get field) }
  (st'', p.2)

/-- The field loop of `standardAdaptor.validate`: iterate the
configured fields in declaration order; a field mapped to `undefined`
is skipped entirely (`if (!validators) continue`, which also skips the
data copy). -/
def runFields (dm : String → String) :
    List (String × Option (List Validator)) → AdState → JSObj → AdState × JSObj
  | [], st, d => (st, d)
  | (_, none) :: rest, st, d => runFields dm rest st d
  | (field, some validators) :: rest, st, d =>
    let p := fieldStep dm field validators st d
    runFields dm rest p.1 p.2

/-- The form-level validator loop of `standardAdaptor.validate`. When a
validator returns `true` the source does
`throw new Error("Validation failed")` inside its own `try`, so the
loop's `catch` immediately records `"Failed to validate form"` — the
same fallback as a validator that itself throws. A truthy string is
recorded verbatim. Either way the loop `break`s. -/
def runFormChain : AdState → List Validator → JSObj → AdState × JSObj
  | st, [], d => (st, d)
  | st, v :: vs, d =>
    match v d with
    | (.thrown, d') => ({ st with formError := some "Failed to validate form" }, d')
    | (.ret r, d') =>
      if r.truthy then
        if r = .vBool true then
          ({ st with formError := some "Failed to validate form" }, d')
        else
          ({ st with formError := some r.asString }, d')
      else
        runFormChain st vs d'

/-- The construction-time configuration of `standardAdaptor`
(`StandardAdaptorOptions` after its destructuring defaults:
`defaultMessage = () => "Required"`, `fields = {}`, `form = []`,
`loose = false`). -/
structure AdaptorCfg where
  defaultMessage : String → String
  fields : List (String × Option (List Validator))
  form : List Validator
  loose : Bool

/-- The source default for `defaultMessage`. -/
def defaultMessageDefault : String → String := fun _ => "Required"

/-- Runs `standardAdaptor(options).validate(data)` on an object input.
`structuredClone(data)` yields a fresh object with the same value, so
in this value-level model the snapshot starts as `data` itself; the
heap model below (`standardValidateH`) accounts for the identity
distinction. Under `loose`, the source re-clones the ORIGINAL input
and overlays the computed `data` onto that clone
(`Object.assign(d, state.data); state.data = d`). -/
def standardValidate (cfg : AdaptorCfg) (data : JSObj) : AdState :=
  let st0 : AdState := { fieldErrors := [], data := [], formError := none }
  let p1 := runFields cfg.defaultMessage cfg.fields st0 data
  let p2 := runFormChain p1.1 cfg.form p1.2
  if cfg.loose then
    { p2.1 with data := objAssign data p2.1.data }
  else
    p2.1

/-! Heap model for the defensive clone.

`structuredClone` matters only through object identity: the clone is a
fresh cell whose initial value copies the original. We model a heap of
objects addressed by `Nat` references and rerun the adaptor with every
validator applied at the snapshot cell. -/

/-- A heap of JS objects; references are list indices. -/
abbrev Heap : Type := List JSObj

/-- Dereference; a dangling reference reads as an empty object (never
exercised by the theorems, which keep references in range). -/
def Heap.get : Heap → Nat → JSObj
  | [], _ => []
  | o :: _, 0 => o
  | _ :: h, n + 1 => Heap.get h n

/-- Store into an existing cell (out-of-range stores are dropped). -/
def Heap.set : Heap → Nat → JSObj → Heap
  | [], _, _ => []
  | _ :: h, 0, o => o :: h
  | o' :: h, n + 1, o => o' :: Heap.set h n o

/-- Allocate a fresh cell holding `o`; returns the new heap and the
fresh reference. Models `structuredClone` when `o` copies an existing
cell's value. -/
def Heap.alloc (h : Heap) (o : JSObj) : Heap × Nat :=
  (h ++ [o], h.length)

/-- Heap version of `runFieldChain`: each validator is applied to the
current value of the snapshot cell `rs`, and its (possibly mutated)
snapshot is written back to the same cell. -/
def runFieldChainH (dm : String → String) (field : String) :
    List Validator → Heap → Nat → Option String × Heap
  | [], h, _ => (none, h)
  | v :: vs, h, rs =>
    match v (h.get rs) with
    | (.thrown, d') => (some (dm field), h.set rs d')
    | (.ret r, d') =>
      if r.truthy then
        (some (if r = .vBool true then dm field else r.asString), h.set rs d')
      else
        runFieldChainH dm field vs (h.set rs d') rs

/-- Heap version of `fieldStep`. -/
def fieldStepH (dm : String → String) (field : String) (validators : List Validator)
    (st : AdState) (h : Heap) (rs : Nat) : AdState × Heap :=
  let p := runFieldChainH dm field validators h rs
  let st' :=
    match p.1 with
    | some e => { st with fieldErrors := alistSet st.fieldErrors field e }
    | none => st
  let st'' :=
    if optStrTruthy (alistLookup st'.fieldErrors field) then st'
    else { st' with data := st'.data.set field ((p.2.get rs).get field) }
  (st'', p.2)

/-- Heap version of the field loop. -/
def runFieldsH (dm : String → String) :
    List (String × Option (List Validator)) → AdState → Heap → Nat → AdState × Heap
  | [], st, h, _ => (st, h)
  | (_, none) :: rest, st, h, rs => runFieldsH dm rest st h rs
  | (field, some validators) :: rest, st, h, rs =>
    let p := fieldStepH dm field validators st h rs
    runFieldsH dm rest p.1 p.2 rs

/-- Heap version of the form-level loop. -/
def runFormChainH : AdState → List Validator → Heap → Nat → AdState × Heap
  | st, [], h, _ => (st, h)
  | st, v :: vs, h, rs =>
    match v (h.get rs) with
    | (.thrown, d') => ({ st with formError := some "Failed to validate form" }, h.set rs d')
    | (.ret r, d') =>
      if r.truthy then
        if r = .vBool true then
          ({ st with formError := some "Failed to validate form" }, h.set rs d')
        else
          ({ st with formError := some r.asString }, h.set rs d')
      else
        runFormChainH st vs (h.set rs d') rs

/-- Runs `standardAdaptor(options).validate` against the heap: the caller's
object lives at `r`; `structuredClone(data)` allocates the snapshot
cell; all validators run against that one shared cell; under `loose`
the source clones the caller's object AGAIN (reading `r` at that
point) and overlays the computed data onto the fresh clone. -/
def standardValidateH (cfg : AdaptorCfg) (h : Heap) (r : Nat) : Heap × AdState :=
  let st0 : AdState := { fieldErrors := [], data := [], formError := none }
  let a := Heap.alloc h (h.get r)
  let p1 := runFieldsH cfg.defaultMessage cfg.fields st0 a.1 a.2
  let p2 := runFormChainH p1.1 cfg.form p1.2 a.2
  if cfg.loose then
    (p2.2, { p2.1 with data := objAssign (p2.2.get r) p2.1.data })
  else
    (p2.2, p2.1)

/-! Form session: `class Form` in `src/index.ts`. -/

/-- The five public state slices of a `Form` instance. -/
structure SessionState where
  fieldErrors : List (String × String)
  submitting : Bool
  data : JSObj
  formError : Option String
  isValid : Bool
deriving DecidableEq, Repr

/-- The freshly constructed session. -/
def initialSession : SessionState :=
  { fieldErrors := [], submitting := false, data := [], formError := none, isValid := false }

/-- Method `hasErrors()` without an argument:
`Object.keys(this.fieldErrors).length > 0 || !!this.formError`. -/
def SessionState.hasErrors (s : SessionState) : Bool :=
  decide (s.fieldErrors ≠ []) || optStrTruthy s.formError

/-- Method `hasErrors(field)`: `!!this.fieldErrors[field]`. -/
def SessionState.hasErrorsField (s : SessionState) (field : String) : Bool :=
  optStrTruthy (alistLookup s.fieldErrors field)

/-- The commit step of `validate` once the adaptor has resolved and the
call was not superseded: assign the three result slices, then
`this.isValid = !this.hasErrors()`. -/
def commit (s : SessionState) (r : AdState) : SessionState :=
  let s' := { s with fieldErrors := r.fieldErrors, data := r.data, formError := r.formError }
  { s' with isValid := !s'.hasErrors }

/-- Method `reset(dontNotify?)`: clear `fieldErrors`, `data`, `formError`,
`isValid`; `submitting` is not assigned by this method. Returns the new
state together with the list of slice keys passed to
`notifySubscribers` (empty when `dontNotify`). -/
def SessionState.resetOp (s : SessionState) (dontNotify : Bool) : SessionState × List String :=
  ({ s with fieldErrors := [], data := [], formError := none, isValid := false },
    if dontNotify then [] else ["fieldErrors", "data", "formError", "isValid"])

/-- The two distinguishable failures `assert()` can throw. -/
inductive AssertError where
  | notValidated
  | hasErrorsErr
deriving DecidableEq, Repr

/-- Method `assert()`: throw "Form has not been validated yet" when `isValid`
is false; otherwise throw "Form has errors and cannot be submitted"
when `this.hasErrors() || this.formError`; otherwise return `data`. -/
def SessionState.assert (s : SessionState) : Except AssertError JSObj :=
  if !s.isValid then
    .error .notValidated
  else if s.hasErrors || optStrTruthy s.formError then
    .error .hasErrorsErr
  else
    .ok s.data

/-! Overlapping `validate` calls: the abort-controller protocol.

Event-level model of `Form.validate`'s concurrency protocol. A call
`i` performs its synchronous prologue at `start i` (abort the stored
controller if any, store a fresh controller identified with `i`,
reset state without notifying) and resumes at `resume i` when its
adaptor promise settles: if its own signal was aborted it returns,
and its `finally` clause sets `lastValidateController = null`
unconditionally; otherwise it clears the reference, commits and
notifies. The source aborts the stored controller twice in a row in
the prologue; `AbortController.abort` is idempotent, so one abort is
modelled. -/

/-- Scheduler events: call `i` starts, or call `i`'s adaptor promise
settles and the call resumes. -/
inductive VEvent where
  | start (i : Nat)
  | resume (i : Nat)
deriving DecidableEq, Repr

/-- Observable protocol state: the stored `lastValidateController`
(identified by the call that created it), the set of aborted
controllers, and which calls committed / notified, in order. -/
structure VSys where
  last : Option Nat
  abortedIds : List Nat
  committed : List Nat
  notifiedCalls : List Nat
deriving DecidableEq, Repr

/-- Protocol state right after construction. -/
def initVSys : VSys :=
  { last := none, abortedIds := [], committed := [], notifiedCalls := [] }

/-- One event of `Form.validate`'s protocol. -/
def vstep (s : VSys) : VEvent → VSys
  | .start i =>
    let s' :=
      match s.last with
      | some j => { s with abortedIds := j :: s.abortedIds }
      | none => s
    { s' with last := some i }
  | .resume i =>
    if s.abortedIds.contains i then
      { s with last := none }
    else
      { s with
        last := none
        committed := s.committed ++ [i]
        notifiedCalls := s.notifiedCalls ++ [i] }

/-- Run a schedule of events from the initial protocol state. -/
def runSchedule (events : List VEvent) : VSys :=
  events.foldl vstep initVSys

/-- Call `i` is superseded in a schedule when some other call starts
strictly between `start i` and `resume i`. -/
def supersededB (sched : List VEvent) (i : Nat) : Bool :=
  match sched.findIdx? (fun e => e = VEvent.start i),
      sched.findIdx? (fun e => e = VEvent.resume i) with
  | some si, some ri =>
    (List.range sched.length).any fun k =>
      si < k && k < ri &&
        match sched.getD k (VEvent.resume i) with
        | VEvent.start j => decide (j ≠ i)
        | _ => false
  | _, _ => false

/-- The schedule exhibiting the stale commit: call 1 settles between
the starts of calls 2 and 3. -/
def bugSchedule : List VEvent :=
  [.start 1, .start 2, .resume 1, .start 3, .resume 2, .resume 3]

/-- The same prefix but call 2 settles last: the superseded call's
result is the final committed state. -/
def bugSchedule2 : List VEvent :=
  [.start 1, .start 2, .resume 1, .start 3, .resume 3, .resume 2]

/-! Submit wrapper: `handle`. -/

/-- Session state as the submit wrapper observes it: the `submitting`
flag and the log of values delivered to `submitting` subscribers. -/
structure HState where
  submitting : Bool
  log : List Bool
deriving DecidableEq, Repr

/-- An effectful computation over `HState` that may raise a JS
exception: it returns the new state and whether it threw. -/
def ExcComp : Type := HState → HState × Bool

/-- Sequencing: an exception in the first computation skips the
second. -/
def seqComp (a b : ExcComp) : ExcComp := fun s =>
  let p := a s
  if p.2 then p else b p.1

/-- Models `try body finally fin` where `fin` itself does not throw: `fin`
runs on both the normal and the exceptional path, and `body`'s
exception (if any) then propagates. -/
def tryFinallyComp (body fin : ExcComp) : ExcComp := fun s =>
  let p := body s
  let q := fin p.1
  (q.1, p.2 || q.2)

/-- Models `this.submitting = true; this.notifySubscribers(["submitting"])`. -/
def setSubmittingTrue : ExcComp := fun s =>
  ({ submitting := true, log := s.log ++ [true] }, false)

/-- The `finally` block:
`this.submitting = false; this.notifySubscribers(["submitting"])`. -/
def setSubmittingFalse : ExcComp := fun s =>
  ({ submitting := false, log := s.log ++ [false] }, false)

/-- The wrapper returned by `handle(fn)`, applied to one submit event:

    try {
      this.submitting = true;
      this.notifySubscribers(["submitting"]);
      e.preventDefault();
      const data = Form.data(e);
      await fn(data, e.target, e);
    } finally {
      this.submitting = false;
      this.notifySubscribers(["submitting"]);
    }

`fn` abstracts the awaited handler body (including `preventDefault`
and data extraction); it may mutate the session arbitrarily and may
throw. -/
def handleWrapper (fn : ExcComp) : ExcComp :=
  tryFinallyComp (seqComp setSubmittingTrue fn) setSubmittingFalse

/-! Concrete configurations and inputs used by the theorems. -/

/-- The key list of an association list. -/
def keysOf {β : Type} (l : List (String × β)) : List String :=
  l.map Prod.fst

/-- A required-style validator for the field `email`: passes on a
truthy value, returns the message `"Required"` otherwise. -/
def requiredEmailValidator : Validator := fun d =>
  (.ret (if (d.get "email").truthy then .vNull else .vStr "Required"), d)

/-- A validator that returns boolean `true` (failure with no explicit
message), leaving the snapshot untouched. -/
def trueValidator : Validator := fun d =>
  (.ret (.vBool true), d)

/-- A validator that returns the explicit message `"X"`. -/
def strXValidator : Validator := fun d =>
  (.ret (.vStr "X"), d)

/-- A validator that returns the empty string. -/
def emptyStrValidator : Validator := fun d =>
  (.ret (.vStr ""), d)

/-- A validator that coerces the field `a` to `"coerced"` on the shared
snapshot and then reports failure by returning `true`. -/
def coerceThenTrueValidator : Validator := fun d =>
  (.ret (.vBool true), d.set "a" (.vStr "coerced"))

/-- A validator that coerces the field `a` to `"coerced"` on the shared
snapshot and passes. -/
def coercePassValidator : Validator := fun d =>
  (.ret .vNull, d.set "a" (.vStr "coerced"))

/-- Configuration with a single required `email` field and defaults
elsewhere. -/
def emailCfg : AdaptorCfg :=
  { defaultMessage := defaultMessageDefault
    fields := [("email", some [requiredEmailValidator])]
    form := []
    loose := false }

/-- Input with an empty `email`, failing `emailCfg`. -/
def emptyEmailInput : JSObj := [("email", .vStr "")]

/-- The session state after a completed validation of `emptyEmailInput`
against `emailCfg`: `validate` resets without notifying, awaits the
adaptor, then commits. -/
def afterFailedValidation : SessionState :=
  commit (initialSession.resetOp true).1 (standardValidate emailCfg emptyEmailInput)

/-- Configuration whose only rule is a form-level validator returning
boolean `true`, with the default `defaultMessage`. -/
def trueFormCfg : AdaptorCfg :=
  { defaultMessage := defaultMessageDefault
    fields := []
    form := [trueValidator]
    loose := false }

/-- An arbitrary one-field input object. -/
def oneFieldInput : JSObj := [("x", .vStr "1")]

/-- A session mid-submit with errors present: `submitting` is true. -/
def submittingSession : SessionState :=
  { fieldErrors := [("email", "Required")]
    submitting := true
    data := []
    formError := some "boom"
    isValid := false }

/-- An adaptor result (allowed by the `Adaptor` contract, whose
`formError` has type `string | null`) carrying an empty-string form
error. -/
def emptyFormErrorResult : AdState :=
  { fieldErrors := [], data := [], formError := some "" }

/-- Loose-mode configuration whose `defaultMessage` returns the empty
string and whose field `a` coerces then fails. -/
def looseEmptyMsgCfg : AdaptorCfg :=
  { defaultMessage := fun _ => ""
    fields := [("a", some [coerceThenTrueValidator])]
    form := []
    loose := true }

/-- Raw input for the loose-mode scenarios. -/
def rawAInput : JSObj := [("a", .vStr "raw"), ("b", .vStr "untouched")]

/-- Loose-mode configuration with a passing coercing validator on `a`
and no validators configured for `b`. -/
def looseCoerceCfg : AdaptorCfg :=
  { defaultMessage := defaultMessageDefault
    fields := [("a", some [coercePassValidator])]
    form := []
    loose := true }

/-! Helper lemmas about the JS object model. -/

theorem alistLookup_set_self {β : Type} (l : List (String × β)) (k : String) (v : β) :
    alistLookup (alistSet l k v) k = some v := by
  induction l with
  | nil => simp [alistSet, alistLookup]
  | cons p rest ih =>
    by_cases h : p.1 = k
    · simp [alistSet, h, alistLookup]
    · simp [alistSet, h, alistLookup, ih]

theorem alistLookup_set_ne {β : Type} (l : List (String × β)) (k k' : String) (v : β)
    (h : k ≠ k') : alistLookup (alistSet l k v) k' = alistLookup l k' := by
  induction l with
  | nil => simp [alistSet, alistLookup, h]
  | cons p rest ih =>
    by_cases hp : p.1 = k
    · subst hp
      simp [alistSet, alistLookup, h]
    · simp only [alistSet, if_neg hp, alistLookup]
      by_cases hk : p.1 = k'
      · simp [hk]
      · simp [hk, ih]

theorem alistLookup_eq_none_iff {β : Type} (l : List (String × β)) (k : String) :
    alistLookup l k = none ↔ k ∉ keysOf l := by
  induction l with
  | nil => simp [alistLookup, keysOf]
  | cons p rest ih =>
    by_cases hp : p.1 = k
    · simp [alistLookup, hp, keysOf]
    · simp only [alistLookup, if_neg hp, keysOf, List.map_cons, List.mem_cons]
      rw [keysOf] at ih
      constructor
      · intro hnone hmem
        rcases hmem with hmem | hmem
        · exact hp hmem.symm
        · exact (ih.mp hnone) hmem
      · intro hmem
        exact ih.mpr fun hk => hmem (Or.inr hk)

theorem keysOf_cons {β : Type} (p : String × β) (l : List (String × β)) :
    keysOf (p :: l) = p.1 :: keysOf l := rfl

theorem keysOf_set {β : Type} (l : List (String × β)) (k : String) (v : β) :
    keysOf (alistSet l k v) = if k ∈ keysOf l then keysOf l else keysOf l ++ [k] := by
  induction l with
  | nil => simp [alistSet, keysOf]
  | cons p rest ih =>
    by_cases hp : p.1 = k
    · simp [alistSet, hp, keysOf]
    · have hstep : alistSet (p :: rest) k v = p :: alistSet rest k v := by
        simp [alistSet, hp]
      rw [hstep, keysOf_cons, ih, keysOf_cons]
      have hne : ¬(k = p.1) := fun h => hp h.symm
      by_cases hk : k ∈ keysOf rest
      · simp [hk, hne]
      · simp [hk, hne]

theorem keysOf_set_nodup {β : Type} (l : List (String × β)) (k : String) (v : β)
    (h : (keysOf l).Nodup) : (keysOf (alistSet l k v)).Nodup := by
  rw [keysOf_set]
  by_cases hk : k ∈ keysOf l
  · simp [hk, h]
  · simp [hk, List.nodup_append, h]

theorem objAssign_nil (t : JSObj) : objAssign t [] = t := rfl

theorem objAssign_cons (t : JSObj) (p : String × JSVal) (s : List (String × JSVal)) :
    objAssign t (p :: s) = objAssign (t.set p.1 p.2) s := rfl

theorem objAssign_get_of_not_mem (t : JSObj) (s : List (String × JSVal)) (k : String)
    (h : k ∉ keysOf s) : (objAssign t s).get k = t.get k := by
  induction s generalizing t with
  | nil => rfl
  | cons p rest ih =>
    simp only [keysOf, List.map_cons, List.mem_cons] at h
    push_neg at h
    rw [objAssign_cons, ih _ (by simpa [keysOf] using h.2)]
    unfold JSObj.get JSObj.set
    rw [alistLookup_set_ne _ _ _ _ (fun he => h.1 he.symm)]

theorem objAssign_get_of_lookup_some (t : JSObj) (s : List (String × JSVal)) (k : String)
    (v : JSVal) (hnd : (keysOf s).Nodup) (h : alistLookup s k = some v) :
    (objAssign t s).get k = v := by
  induction s generalizing t with
  | nil => simp [alistLookup] at h
  | cons p rest ih =>
    simp only [keysOf, List.map_cons, List.nodup_cons] at hnd
    by_cases hp : p.1 = k
    · have hv : v = p.2 := by
        simp [alistLookup, hp] at h
        exact h.symm
      subst hv
      have hnm : k ∉ keysOf rest := by
        rw [← hp]
        exact hnd.1
      rw [objAssign_cons, objAssign_get_of_not_mem _ _ _ hnm]
      unfold JSObj.get JSObj.set
      rw [hp, alistLookup_set_self]
      rfl
    · simp only [alistLookup, if_neg hp] at h
      rw [objAssign_cons]
      exact ih _ hnd.2 h

/-! Helper lemmas about the heap model. -/

theorem Heap.get_set_self (h : Heap) (rs : Nat) (o : JSObj) (hlt : rs < h.length) :
    (Heap.set h rs o).get rs = o := by
  induction h generalizing rs with
  | nil => simp at hlt
  | cons x xs ih =>
    cases rs with
    | zero => rfl
    | succ n =>
      simp only [List.length_cons, Nat.succ_lt_succ_iff] at hlt
      exact ih n hlt

theorem Heap.get_set_ne (h : Heap) (rs r : Nat) (o : JSObj) (hne : r ≠ rs) :
    (Heap.set h rs o).get r = h.get r := by
  induction h generalizing rs r with
  | nil => rfl
  | cons x xs ih =>
    cases rs with
    | zero =>
      cases r with
      | zero => exact absurd rfl hne
      | succ m => rfl
    | succ n =>
      cases r with
      | zero => rfl
      | succ m => exact ih n m (fun he => hne (by omega))

theorem Heap.set_set (h : Heap) (rs : Nat) (a b : JSObj) :
    Heap.set (Heap.set h rs a) rs b = Heap.set h rs b := by
  induction h generalizing rs with
  | nil => rfl
  | cons x xs ih =>
    cases rs with
    | zero => rfl
    | succ n => simp [Heap.set, ih]

theorem Heap.set_get_self (h : Heap) (rs : Nat) :
    Heap.set h rs (h.get rs) = h := by
  induction h generalizing rs with
  | nil => rfl
  | cons x xs ih =>
    cases rs with
    | zero => rfl
    | succ n => simp [Heap.set, Heap.get, ih]

theorem Heap.length_set (h : Heap) (rs : Nat) (o : JSObj) :
    (Heap.set h rs o).length = h.length := by
  induction h generalizing rs with
  | nil => rfl
  | cons x xs ih =>
    cases rs with
    | zero => rfl
    | succ n => simp [Heap.set, ih]

theorem Heap.get_append_left (h : Heap) (o : JSObj) (r : Nat) (hlt : r < h.length) :
    Heap.get (h ++ [o]) r = h.get r := by
  induction h generalizing r with
  | nil => simp at hlt
  | cons x xs ih =>
    cases r with
    | zero => rfl
    | succ n =>
      simp only [List.length_cons, Nat.succ_lt_succ_iff] at hlt
      exact ih n hlt

theorem Heap.get_append_length (h : Heap) (o : JSObj) :
    Heap.get (h ++ [o]) h.length = o := by
  induction h with
  | nil => rfl
  | cons x xs ih => exact ih

/-! Helper lemmas about the field loop and the form-level loop. -/

theorem fieldStep_formError (dm : String → String) (field : String) (vs : List Validator)
    (st : AdState) (d : JSObj) :
    (fieldStep dm field vs st d).1.formError = st.formError := by
  rcases hp : runFieldChain dm field vs d with ⟨err, d2⟩
  unfold fieldStep
  rw [hp]
  cases err <;> dsimp only <;> split <;> rfl

theorem fieldStep_fieldErrors_ne (dm : String → String) (field : String) (vs : List Validator)
    (st : AdState) (d : JSObj) (f : String) (hne : f ≠ field) :
    alistLookup (fieldStep dm field vs st d).1.fieldErrors f = alistLookup st.fieldErrors f := by
  rcases hp : runFieldChain dm field vs d with ⟨err, d2⟩
  unfold fieldStep
  rw [hp]
  cases err with
  | none => dsimp only; split <;> rfl
  | some e =>
    dsimp only
    split <;> exact alistLookup_set_ne _ _ _ _ (fun h => hne h.symm)

theorem fieldStep_data_ne (dm : String → String) (field : String) (vs : List Validator)
    (st : AdState) (d : JSObj) (f : String) (hne : f ≠ field) :
    alistLookup (fieldStep dm field vs st d).1.data f = alistLookup st.data f := by
  rcases hp : runFieldChain dm field vs d with ⟨err, d2⟩
  unfold fieldStep
  rw [hp]
  cases err <;> dsimp only <;> split
  · rfl
  · exact alistLookup_set_ne _ _ _ _ (fun h => hne h.symm)
  · rfl
  · exact alistLookup_set_ne _ _ _ _ (fun h => hne h.symm)

theorem fieldStep_data_eq (dm : String → String) (field : String) (vs : List Validator)
    (st : AdState) (d : JSObj) :
    (fieldStep dm field vs st d).1.data = st.data ∨
      ((fieldStep dm field vs st d).1.data =
          st.data.set field ((fieldStep dm field vs st d).2.get field) ∧
        optStrTruthy (alistLookup (fieldStep dm field vs st d).1.fieldErrors field) = false) := by
  rcases hp : runFieldChain dm field vs d with ⟨err, d2⟩
  unfold fieldStep
  rw [hp]
  cases err <;> dsimp only <;> split
  case none.isTrue => exact Or.inl rfl
  case none.isFalse h => exact Or.inr ⟨rfl, by simpa using h⟩
  case some.isTrue => exact Or.inl rfl
  case some.isFalse h => exact Or.inr ⟨rfl, by simpa using h⟩

theorem fieldStep_fieldErrors_keys (dm : String → String) (field : String)
    (vs : List Validator) (st : AdState) (d : JSObj) (f : String)
    (h : f ∈ keysOf (fieldStep dm field vs st d).1.fieldErrors) :
    f ∈ keysOf st.fieldErrors ∨ f = field := by
  rcases hp : runFieldChain dm field vs d with ⟨err, d2⟩
  unfold fieldStep at h
  rw [hp] at h
  cases err with
  | none =>
    dsimp only at h
    split at h <;> exact Or.inl h
  | some e =>
    dsimp only at h
    split at h <;>
    · dsimp only at h
      rw [keysOf_set] at h
      by_cases hm : field ∈ keysOf st.fieldErrors
      · rw [if_pos hm] at h
        exact Or.inl h
      · rw [if_neg hm] at h
        rcases List.mem_append.mp h with h1 | h1
        · exact Or.inl h1
        · exact Or.inr (List.mem_singleton.mp h1)

theorem fieldStep_data_keys (dm : String → String) (field : String)
    (vs : List Validator) (st : AdState) (d : JSObj) (f : String)
    (h : f ∈ keysOf (fieldStep dm field vs st d).1.data) :
    f ∈ keysOf st.data ∨ f = field := by
  rcases hd : (fieldStep dm field vs st d).1.data with l
  rcases fieldStep_data_eq dm field vs st d with heq | ⟨heq, _⟩
  · rw [heq] at h
    exact Or.inl h
  · rw [heq] at h
    unfold JSObj.set at h
    rw [keysOf_set] at h
    by_cases hm : field ∈ keysOf st.data
    · rw [if_pos hm] at h
      exact Or.inl h
    · rw [if_neg hm] at h
      rcases List.mem_append.mp h with h1 | h1
      · exact Or.inl h1
      · exact Or.inr (List.mem_singleton.mp h1)

theorem fieldStep_data_nodup (dm : String → String) (field : String)
    (vs : List Validator) (st : AdState) (d : JSObj)
    (h : (keysOf st.data).Nodup) :
    (keysOf (fieldStep dm field vs st d).1.data).Nodup := by
  rcases fieldStep_data_eq dm field vs st d with heq | ⟨heq, _⟩
  · rw [heq]; exact h
  · rw [heq]
    exact keysOf_set_nodup _ _ _ h

theorem runFields_formError (dm : String → String)
    (entries : List (String × Option (List Validator))) (st : AdState) (d : JSObj) :
    (runFields dm entries st d).1.formError = st.formError := by
  induction entries generalizing st d with
  | nil => rfl
  | cons e rest ih =>
    obtain ⟨f, ov⟩ := e
    cases ov with
    | none => exact ih st d
    | some vs =>
      show (runFields dm rest (fieldStep dm f vs st d).1 (fieldStep dm f vs st d).2).1.formError
          = st.formError
      rw [ih, fieldStep_formError]

theorem runFields_data_mem (dm : String → String)
    (entries : List (String × Option (List Validator))) (st : AdState) (d : JSObj)
    (f : String) (h : f ∈ keysOf (runFields dm entries st d).1.data) :
    f ∈ keysOf st.data ∨ f ∈ keysOf entries := by
  induction entries generalizing st d with
  | nil => exact Or.inl h
  | cons e rest ih =>
    obtain ⟨g, ov⟩ := e
    cases ov with
    | none =>
      rcases ih st d h with h1 | h1
      · exact Or.inl h1
      · exact Or.inr (by simp [keysOf] at h1 ⊢; exact Or.inr h1)
    | some vs =>
      have h' : f ∈ keysOf (runFields dm rest (fieldStep dm g vs st d).1
          (fieldStep dm g vs st d).2).1.data := h
      rcases ih _ _ h' with h1 | h1
      · rcases fieldStep_data_keys dm g vs st d f h1 with h2 | h2
        · exact Or.inl h2
        · exact Or.inr (by simp [keysOf, h2])
      · exact Or.inr (by simp [keysOf] at h1 ⊢; exact Or.inr h1)

theorem runFields_data_nodup (dm : String → String)
    (entries : List (String × Option (List Validator))) (st : AdState) (d : JSObj)
    (h : (keysOf st.data).Nodup) :
    (keysOf (runFields dm entries st d).1.data).Nodup := by
  induction entries generalizing st d with
  | nil => exact h
  | cons e rest ih =>
    obtain ⟨g, ov⟩ := e
    cases ov with
    | none => exact ih st d h
    | some vs => exact ih _ _ (fieldStep_data_nodup dm g vs st d h)

theorem runFields_truthy_not_in_data (dm : String → String)
    (entries : List (String × Option (List Validator))) (st : AdState) (d : JSObj)
    (hnd : (keysOf entries).Nodup)
    (hinv : ∀ f, optStrTruthy (alistLookup st.fieldErrors f) = true →
      alistLookup st.data f = none)
    (hfresh : ∀ f, f ∈ keysOf entries →
      alistLookup st.fieldErrors f = none ∧ alistLookup st.data f = none) :
    ∀ f, optStrTruthy (alistLookup (runFields dm entries st d).1.fieldErrors f) = true →
      alistLookup (runFields dm entries st d).1.data f = none := by
  induction entries generalizing st d with
  | nil => exact hinv
  | cons e rest ih =>
    obtain ⟨g, ov⟩ := e
    rw [keysOf_cons] at hnd hfresh
    have hnd' : (keysOf rest).Nodup := (List.nodup_cons.mp hnd).2
    have hgnotin : g ∉ keysOf rest := (List.nodup_cons.mp hnd).1
    cases ov with
    | none =>
      exact ih st d hnd' hinv (fun f hf => hfresh f (List.mem_cons_of_mem _ hf))
    | some vs =>
      show ∀ f, optStrTruthy (alistLookup (runFields dm rest (fieldStep dm g vs st d).1
            (fieldStep dm g vs st d).2).1.fieldErrors f) = true →
          alistLookup (runFields dm rest (fieldStep dm g vs st d).1
            (fieldStep dm g vs st d).2).1.data f = none
      apply ih _ _ hnd'
      · intro f hf
        by_cases hfg : f = g
        · subst hfg
          rcases fieldStep_data_eq dm f vs st d with heq | ⟨_, hfalse⟩
          · rw [heq]
            exact (hfresh f (List.mem_cons_self _ _)).2
          · rw [hfalse] at hf
            exact Bool.noConfusion hf
        · rw [fieldStep_data_ne dm g vs st d f hfg]
          apply hinv f
          rw [← fieldStep_fieldErrors_ne dm g vs st d f hfg]
          exact hf
      · intro f hf
        have hfg : f ≠ g := fun he => hgnotin (he ▸ hf)
        refine ⟨?_, ?_⟩
        · rw [fieldStep_fieldErrors_ne dm g vs st d f hfg]
          exact (hfresh f (List.mem_cons_of_mem _ hf)).1
        · rw [fieldStep_data_ne dm g vs st d f hfg]
          exact (hfresh f (List.mem_cons_of_mem _ hf)).2

theorem runFormChain_fieldErrors (st : AdState) (vs : List Validator) (d : JSObj) :
    (runFormChain st vs d).1.fieldErrors = st.fieldErrors := by
  induction vs generalizing st d with
  | nil => rfl
  | cons v vs ih =>
    show (runFormChain st (v :: vs) d).1.fieldErrors = st.fieldErrors
    rcases hv : v d with ⟨out, d'⟩
    unfold runFormChain
    rw [hv]
    cases out with
    | thrown => rfl
    | ret r =>
      by_cases hr : r.truthy
      · by_cases ht : r = .vBool true
        · subst ht
          simp [JSVal.truthy]
        · simp [hr, ht]
      · simp only [hr]
        simp only [Bool.false_eq_true, if_false]
        exact ih st d'

theorem runFormChain_data (st : AdState) (vs : List Validator) (d : JSObj) :
    (runFormChain st vs d).1.data = st.data := by
  induction vs generalizing st d with
  | nil => rfl
  | cons v vs ih =>
    rcases hv : v d with ⟨out, d'⟩
    unfold runFormChain
    rw [hv]
    cases out with
    | thrown => rfl
    | ret r =>
      by_cases hr : r.truthy
      · by_cases ht : r = .vBool true
        · subst ht
          simp [JSVal.truthy]
        · simp [hr, ht]
      · simp only [hr]
        simp only [Bool.false_eq_true, if_false]
        exact ih st d'

theorem runFormChain_formError_cases (st : AdState) (vs : List Validator) (d : JSObj) :
    (runFormChain st vs d).1.formError = st.formError ∨
      ∃ m, (runFormChain st vs d).1.formError = some m ∧ m ≠ "" := by
  induction vs generalizing st d with
  | nil => exact Or.inl rfl
  | cons v vs ih =>
    rcases hv : v d with ⟨out, d'⟩
    unfold runFormChain
    rw [hv]
    cases out with
    | thrown =>
      exact Or.inr ⟨"Failed to validate form", rfl, by decide⟩
    | ret r =>
      by_cases hr : r.truthy
      · by_cases ht : r = .vBool true
        · subst ht
          exact Or.inr ⟨"Failed to validate form", by simp [JSVal.truthy], by decide⟩
        · have hs : ∃ s, r = .vStr s ∧ s ≠ "" := by
            cases r with
            | vNull => simp [JSVal.truthy] at hr
            | vBool b =>
              cases b
              · simp [JSVal.truthy] at hr
              · exact absurd rfl ht
            | vStr s => exact ⟨s, rfl, by simpa [JSVal.truthy] using hr⟩
          obtain ⟨s, hsr, hse⟩ := hs
          subst hsr
          refine Or.inr ⟨s, ?_, hse⟩
          simp [JSVal.truthy, hse, JSVal.asString]
      · simp only [hr]
        simp only [Bool.false_eq_true, if_false]
        exact ih st d'

/-! Helper lemmas about the assembled adaptor run. -/

theorem standardValidate_fieldErrors (cfg : AdaptorCfg) (d : JSObj) :
    (standardValidate cfg d).fieldErrors =
      (runFields cfg.defaultMessage cfg.fields ⟨[], [], none⟩ d).1.fieldErrors := by
  unfold standardValidate
  by_cases hl : cfg.loose <;> simp [hl, runFormChain_fieldErrors]

theorem standardValidate_data_of_not_loose (cfg : AdaptorCfg) (d : JSObj)
    (hl : cfg.loose = false) :
    (standardValidate cfg d).data =
      (runFields cfg.defaultMessage cfg.fields ⟨[], [], none⟩ d).1.data := by
  unfold standardValidate
  simp [hl, runFormChain_data]

theorem standardValidate_loose_strict (cfg : AdaptorCfg) (d : JSObj) (hl : cfg.loose = true) :
    standardValidate cfg d =
      { standardValidate { cfg with loose := false } d with
        data := objAssign d (standardValidate { cfg with loose := false } d).data } := by
  unfold standardValidate
  simp [hl]

theorem standardValidate_formError_ne_empty (cfg : AdaptorCfg) (d : JSObj) :
    (standardValidate cfg d).formError ≠ some "" := by
  have hFields := runFields_formError cfg.defaultMessage cfg.fields ⟨[], [], none⟩ d
  have hCases := runFormChain_formError_cases
    (runFields cfg.defaultMessage cfg.fields ⟨[], [], none⟩ d).1 cfg.form
    (runFields cfg.defaultMessage cfg.fields ⟨[], [], none⟩ d).2
  unfold standardValidate
  by_cases hl : cfg.loose <;> simp only [hl, if_true, Bool.false_eq_true, if_false] <;>
  · rcases hCases with hsame | ⟨m, hm, hne⟩
    · simp only [hsame, hFields]
      intro hcon
      cases hcon
    · simp only [hm]
      intro hcon
      exact hne (Option.some_injective _ hcon)

/-! Refinement lemmas: the heap run equals the pure run on the value of
the single shared snapshot cell, and writes only to that cell. -/

theorem runFieldChainH_spec (dm : String → String) (field : String) (vs : List Validator)
    (h : Heap) (rs : Nat) (hlt : rs < h.length) :
    runFieldChainH dm field vs h rs =
      ((runFieldChain dm field vs (h.get rs)).1,
        Heap.set h rs (runFieldChain dm field vs (h.get rs)).2) := by
  induction vs generalizing h with
  | nil =>
    show (none, h) = (none, Heap.set h rs (h.get rs))
    rw [Heap.set_get_self]
  | cons v vs ih =>
    rcases hv : v (h.get rs) with ⟨out, d'⟩
    unfold runFieldChainH runFieldChain
    rw [hv]
    cases out with
    | thrown => rfl
    | ret r =>
      by_cases hr : r.truthy
      · simp [hr]
      · simp only [hr, Bool.false_eq_true, if_false]
        rw [ih (h.set rs d') (by rw [Heap.length_set]; exact hlt)]
        rw [Heap.get_set_self h rs d' hlt, Heap.set_set]

theorem fieldStepH_spec (dm : String → String) (field : String) (vs : List Validator)
    (st : AdState) (h : Heap) (rs : Nat) (hlt : rs < h.length) :
    fieldStepH dm field vs st h rs =
      ((fieldStep dm field vs st (h.get rs)).1,
        Heap.set h rs (fieldStep dm field vs st (h.get rs)).2) := by
  unfold fieldStepH fieldStep
  rw [runFieldChainH_spec dm field vs h rs hlt]
  rcases hp : runFieldChain dm field vs (h.get rs) with ⟨err, d2⟩
  dsimp only
  rw [Heap.get_set_self h rs d2 hlt]

theorem runFieldsH_spec (dm : String → String)
    (entries : List (String × Option (List Validator))) (st : AdState)
    (h : Heap) (rs : Nat) (hlt : rs < h.length) :
    runFieldsH dm entries st h rs =
      ((runFields dm entries st (h.get rs)).1,
        Heap.set h rs (runFields dm entries st (h.get rs)).2) := by
  induction entries generalizing st h with
  | nil =>
    show (st, h) = (st, Heap.set h rs (h.get rs))
    rw [Heap.set_get_self]
  | cons e rest ih =>
    obtain ⟨g, ov⟩ := e
    cases ov with
    | none => exact ih st h hlt
    | some vs =>
      show runFieldsH dm rest (fieldStepH dm g vs st h rs).1 (fieldStepH dm g vs st h rs).2 rs
          = _
      rw [fieldStepH_spec dm g vs st h rs hlt]
      rw [ih _ _ (by rw [Heap.length_set]; exact hlt)]
      rw [Heap.get_set_self _ _ _ hlt, Heap.set_set]
      rfl

theorem runFormChainH_spec (st : AdState) (vs : List Validator)
    (h : Heap) (rs : Nat) (hlt : rs < h.length) :
    runFormChainH st vs h rs =
      ((runFormChain st vs (h.get rs)).1,
        Heap.set h rs (runFormChain st vs (h.get rs)).2) := by
  induction vs generalizing st h with
  | nil =>
    show (st, h) = (st, Heap.set h rs (h.get rs))
    rw [Heap.set_get_self]
  | cons v vs ih =>
    rcases hv : v (h.get rs) with ⟨out, d'⟩
    unfold runFormChainH runFormChain
    rw [hv]
    cases out with
    | thrown => rfl
    | ret r =>
      by_cases hr : r.truthy
      · by_cases ht : r = .vBool true
        · subst ht
          simp [JSVal.truthy]
        · simp [hr, ht]
      · simp only [hr, Bool.false_eq_true, if_false]
        rw [ih st (h.set rs d') (by rw [Heap.length_set]; exact hlt)]
        rw [Heap.get_set_self h rs d' hlt, Heap.set_set]

/-! Claim theorems. -/

/-- Claim C1 (evidence of the code bug): in the schedule where call 1's
adaptor promise settles between the starts of calls 2 and 3, call 2 is
superseded by call 3 and nevertheless commits its result and notifies
subscribers. The cleanup in `validate`'s `finally` clause
(`this.lastValidateController = null`) also runs on the superseded
path, erasing the controller call 2 had stored, so call 3's prologue
finds no pending controller to abort and call 2 later resumes with an
un-aborted signal and commits. The claim (and the spec) require that a
superseded call never commits or notifies. In the variant schedule
where call 2 settles last, the superseded call's commit is even the
final visible state. -/
theorem c1_stale_commit_bug :
    supersededB bugSchedule 2 = true ∧
      (runSchedule bugSchedule).committed = [2, 3] ∧
      (runSchedule bugSchedule).notifiedCalls = [2, 3] ∧
      supersededB bugSchedule2 2 = true ∧
      (runSchedule bugSchedule2).committed = [3, 2] :=
  ⟨by decide, by decide, by decide, by decide, by decide⟩

/-- Claim C2, counterexample: after a completed validation that
produced a field error, `assert()` fails with the "not validated"
error (`isValid` is false in that state), not with the distinguishable
"has errors" error the claim requires for that situation. -/
theorem c2_counterexample :
    afterFailedValidation.fieldErrors = [("email", "Required")] ∧
      afterFailedValidation.assert = Except.error AssertError.notValidated ∧
      AssertError.notValidated ≠ AssertError.hasErrorsErr :=
  ⟨by decide, rfl, by decide⟩

/-- Claim C2, amended: on every committed session state, `assert()`
returns the current `data` exactly when `isValid` is true; whenever
`isValid` is false — including after a completed validation that
produced field errors or a form error — the failure is the
"not validated" error. The distinct "has errors" error exists in the
code but fires only when `isValid` is true while errors are present,
which no committed state exhibits. -/
theorem c2_assert_amended (s0 : SessionState) (r : AdState) :
    ((commit s0 r).assert = Except.ok (commit s0 r).data ↔ (commit s0 r).isValid = true) ∧
      ((commit s0 r).isValid = false →
        (commit s0 r).assert = Except.error AssertError.notValidated) := by
  have hval : (commit s0 r).isValid = !(commit s0 r).hasErrors := rfl
  cases hE : (commit s0 r).hasErrors with
  | false =>
    have hv : (commit s0 r).isValid = true := by rw [hval, hE]; rfl
    have hf : optStrTruthy (commit s0 r).formError = false := by
      have h2 := hE
      unfold SessionState.hasErrors at h2
      exact (Bool.or_eq_false_iff.mp h2).2
    constructor
    · constructor
      · intro _
        exact hv
      · intro _
        unfold SessionState.assert
        rw [hv, hE, hf]
        rfl
    · intro hcon
      rw [hv] at hcon
      cases hcon
  | true =>
    have hv : (commit s0 r).isValid = false := by rw [hval, hE]; rfl
    have hassert : (commit s0 r).assert = Except.error AssertError.notValidated := by
      unfold SessionState.assert
      rw [hv]
      rfl
    constructor
    · constructor
      · intro hok
        rw [hassert] at hok
        cases hok
      · intro hvt
        rw [hv] at hvt
        cases hvt
    · intro _
      exact hassert

/-- Claim C2, witness: the amended theorem applied at the concrete
completed validation of an empty email, whose failure is the
"not validated" kind. -/
theorem c2_assert_witness :
    (commit (initialSession.resetOp true).1
        (standardValidate emailCfg emptyEmailInput)).assert =
      Except.error AssertError.notValidated :=
  (c2_assert_amended (initialSession.resetOp true).1
      (standardValidate emailCfg emptyEmailInput)).2 (by decide)

/-- Claim C3, counterexample: a form-level validator returning boolean
`true` under the default `defaultMessage` records the fixed fallback
`"Failed to validate form"`, not the default message `"Required"` the
claim requires. -/
theorem c3_counterexample :
    (standardValidate trueFormCfg oneFieldInput).formError =
        some "Failed to validate form" ∧
      trueFormCfg.defaultMessage "x" = "Required" ∧
      (standardValidate trueFormCfg oneFieldInput).formError ≠
        some (trueFormCfg.defaultMessage "x") :=
  ⟨rfl, rfl, by decide⟩

/-- Claim C3, amended: when a form-level validator returns boolean
`true`, the recorded `formError` is the fixed string
`"Failed to validate form"` (the `throw new Error("Validation failed")`
is caught by the same loop's `catch`), and the chain stops at that
validator: the result does not depend on the remaining validators. -/
theorem c3_form_true_amended (st : AdState) (v : Validator) (vs : List Validator)
    (d dOut : JSObj) (hv : v d = (VOut.ret (JSVal.vBool true), dOut)) :
    runFormChain st (v :: vs) d =
      ({ st with formError := some "Failed to validate form" }, dOut) := by
  unfold runFormChain
  rw [hv]
  simp [JSVal.truthy]

/-- Claim C3, witness: the amended theorem applied to the concrete
`true`-returning form validator. -/
theorem c3_form_true_witness :
    runFormChain { fieldErrors := [], data := [], formError := none } [trueValidator]
        oneFieldInput =
      ({ fieldErrors := [], data := [], formError := some "Failed to validate form" },
        oneFieldInput) :=
  c3_form_true_amended _ trueValidator [] oneFieldInput oneFieldInput rfl

/-- Claim C4, counterexample: `reset()` does not assign `submitting`,
so on a session whose `submitting` is true, `submitting` is still true
after `reset()` — the claim requires it to be false after any call. -/
theorem c4_counterexample :
    submittingSession.submitting = true ∧
      (submittingSession.resetOp false).1.submitting = true :=
  ⟨rfl, rfl⟩

/-- Claim C4, amended: `reset()` synchronously clears the four slices
`fieldErrors`, `data`, `formError`, `isValid` to the neutral baseline
and (unless invoked internally with `dontNotify`) notifies subscribers
of exactly those four slices; `submitting` is left unchanged. -/
theorem c4_reset_amended (s : SessionState) (dontNotify : Bool) :
    (s.resetOp dontNotify).1.fieldErrors = [] ∧
      (s.resetOp dontNotify).1.data = [] ∧
      (s.resetOp dontNotify).1.formError = none ∧
      (s.resetOp dontNotify).1.isValid = false ∧
      (s.resetOp dontNotify).1.submitting = s.submitting ∧
      (s.resetOp false).2 = ["fieldErrors", "data", "formError", "isValid"] ∧
      (s.resetOp true).2 = [] :=
  ⟨rfl, rfl, rfl, rfl, rfl, rfl, rfl⟩

/-- Claim C5: in a field's chain, the first non-passing validator wins:
if the first validator returns boolean `true`, the recorded error is
the default message produced for it, and the second validator is never
invoked — the result is the same for every choice of the second
validator and of the rest of the chain. -/
theorem c5_chain_short_circuit (dm : String → String) (field : String)
    (va vb : Validator) (rest : List Validator) (d dOut : JSObj)
    (hva : va d = (VOut.ret (JSVal.vBool true), dOut)) :
    runFieldChain dm field (va :: vb :: rest) d = (some (dm field), dOut) := by
  unfold runFieldChain
  rw [hva]
  simp [JSVal.truthy]

/-- Claim C5, witness: the chain `[A returning true, B returning "X"]`
records the default message `"Required"`, independently of B. -/
theorem c5_witness :
    runFieldChain defaultMessageDefault "a" [trueValidator, strXValidator] rawAInput =
      (some "Required", rawAInput) :=
  c5_chain_short_circuit defaultMessageDefault "a" trueValidator strXValidator []
    rawAInput rawAInput rfl

/-- Claim C6, counterexample: committing an adaptor result whose
`formError` is the empty string (permitted by the adaptor contract,
whose `formError` field has type string-or-null) yields `isValid =
true` although `formError` is not null, refuting
`isValid === (fieldErrors empty AND formError null)`. -/
theorem c6_counterexample :
    (commit initialSession emptyFormErrorResult).isValid = true ∧
      (commit initialSession emptyFormErrorResult).formError ≠ none ∧
      (commit initialSession emptyFormErrorResult).fieldErrors = [] :=
  ⟨by decide, by decide, by decide⟩

/-- Claim C6, amended: after every completed (non-superseded)
validation, `isValid` is true exactly when `fieldErrors` is empty and
`formError` is not a truthy (non-empty) string — that is, `formError`
is null or the empty string. The standard adaptor never produces an
empty-string `formError`, so against the standard adaptor this
coincides with the claimed invariant. -/
theorem c6_isvalid_amended :
    (∀ (s0 : SessionState) (r : AdState),
        (commit s0 r).isValid = true ↔
          ((commit s0 r).fieldErrors = [] ∧
            optStrTruthy (commit s0 r).formError = false)) ∧
      ∀ (cfg : AdaptorCfg) (d : JSObj), (standardValidate cfg d).formError ≠ some "" := by
  constructor
  · intro s0 r
    show (!(commit s0 r).hasErrors) = true ↔ _
    unfold SessionState.hasErrors
    simp
  · intro cfg d
    exact standardValidate_formError_ne_empty cfg d

/-- Claim C6, witness: the amended invariant applied at a committed
clean result. -/
theorem c6_witness :
    (commit initialSession { fieldErrors := [], data := [], formError := none }).isValid
      = true :=
  (c6_isvalid_amended.1 initialSession
      { fieldErrors := [], data := [], formError := none }).mpr ⟨rfl, rfl⟩

/-- Claim C7: the standard adaptor clones the input before running any
validator, so the caller's original object (heap cell `r`) is unchanged
after validation completes, even when validators mutate the snapshot
they receive; and the run is equivalent to threading one shared cloned
snapshot value through all validators (the pure `standardValidate` on
the value of cell `r`). -/
theorem c7_clone_frame (cfg : AdaptorCfg) (h : Heap) (r : Nat) (hr : r < h.length) :
    Heap.get (standardValidateH cfg h r).1 r = Heap.get h r ∧
      (standardValidateH cfg h r).2 = standardValidate cfg (Heap.get h r) := by
  have hlen : h.length < (h ++ [Heap.get h r]).length := by simp
  have hne : r ≠ h.length := Nat.ne_of_lt hr
  unfold standardValidateH standardValidate
  dsimp only [Heap.alloc]
  rw [runFieldsH_spec _ _ _ _ _ hlen]
  rw [Heap.get_append_length]
  rw [runFormChainH_spec _ _ _ _ (by rw [Heap.length_set]; exact hlen)]
  rw [Heap.get_set_self _ _ _ hlen, Heap.set_set]
  constructor
  · by_cases hl : cfg.loose <;>
      simp only [hl, if_true, Bool.false_eq_true, if_false] <;>
      rw [Heap.get_set_ne _ _ _ _ hne, Heap.get_append_left _ _ _ hr]
  · by_cases hl : cfg.loose
    · simp only [hl, if_true]
      rw [Heap.get_set_ne _ _ _ _ hne, Heap.get_append_left _ _ _ hr]
    · simp only [hl, Bool.false_eq_true, if_false]

/-- Claim C7, witness: the frame property evaluated on a one-cell
heap. -/
theorem c7_witness :
    (0 : Nat) < ([emptyEmailInput] : Heap).length ∧
      Heap.get (standardValidateH emailCfg [emptyEmailInput] 0).1 0 =
        Heap.get ([emptyEmailInput] : Heap) 0 :=
  ⟨by decide, (c7_clone_frame emailCfg [emptyEmailInput] 0 (by decide)).1⟩

/-- Claim C8: the submit wrapper returned by `handle(fn)` sets
`submitting` to true (with a notification) before running `fn` —
`fn` observes the entry state with `submitting = true` — and on both
the resolving and the throwing path it sets `submitting` back to false
and notifies before the wrapper settles; `fn`'s exception status is
propagated to the wrapper's caller unchanged. `fn` is arbitrary: it
may mutate the session and may throw. -/
theorem c8_handle_cleanup (fn : ExcComp) (s : HState) :
    (handleWrapper fn s).1.submitting = false ∧
      (handleWrapper fn s).2 = (fn { submitting := true, log := s.log ++ [true] }).2 ∧
      (handleWrapper fn s).1.log =
        (fn { submitting := true, log := s.log ++ [true] }).1.log ++ [false] ∧
      (HState.mk true (s.log ++ [true])).submitting = true := by
  unfold handleWrapper tryFinallyComp seqComp setSubmittingTrue setSubmittingFalse
  dsimp only
  exact ⟨rfl, by simp, rfl, rfl⟩

/-- Claim C9, counterexample: in loose mode with a caller-supplied
`defaultMessage` returning the empty string, a field that failed
validation (its chain returned `true`, an error entry is recorded)
still appears in `data` with its coerced value rather than its
original raw value, because the data-copy guard tests the falsiness of
the recorded message instead of its presence. -/
theorem c9_counterexample :
    alistLookup (standardValidate looseEmptyMsgCfg rawAInput).fieldErrors "a" = some "" ∧
      (standardValidate looseEmptyMsgCfg rawAInput).data.get "a" = JSVal.vStr "coerced" ∧
      rawAInput.get "a" = JSVal.vStr "raw" ∧
      (commit initialSession (standardValidate looseEmptyMsgCfg rawAInput)).isValid
        = false :=
  ⟨by decide, by decide, by decide, by decide⟩

/-- Claim C9, amended: under loose mode the result `data` equals a
fresh clone of the original raw input overlaid with the strict-mode
`data`; every field with no configured validators keeps its original
raw value; every field whose recorded error message is truthy
(non-empty) keeps its original raw value; and every field present in
the strict-mode `data` (the passing fields, plus fields that failed
with an empty-string recorded message — possible only when
`defaultMessage` returns the empty string) carries its validated,
possibly coerced, value. -/
theorem c9_loose_amended (cfg : AdaptorCfg) (d : JSObj)
    (hl : cfg.loose = true) (hnd : (keysOf cfg.fields).Nodup) :
    (standardValidate cfg d).data =
        objAssign d (standardValidate { cfg with loose := false } d).data ∧
      (∀ f, f ∉ keysOf cfg.fields → (standardValidate cfg d).data.get f = d.get f) ∧
      (∀ f, optStrTruthy (alistLookup (standardValidate cfg d).fieldErrors f) = true →
        (standardValidate cfg d).data.get f = d.get f) ∧
      (∀ f v, alistLookup (standardValidate { cfg with loose := false } d).data f = some v →
        (standardValidate cfg d).data.get f = v) := by
  have hstrict := standardValidate_loose_strict cfg d hl
  have hsdata : (standardValidate { cfg with loose := false } d).data =
      (runFields cfg.defaultMessage cfg.fields ⟨[], [], none⟩ d).1.data :=
    standardValidate_data_of_not_loose { cfg with loose := false } d rfl
  refine ⟨?_, ?_, ?_, ?_⟩
  · rw [hstrict]
  · intro f hf
    rw [hstrict]
    dsimp only
    apply objAssign_get_of_not_mem
    intro hmem
    rw [hsdata] at hmem
    rcases runFields_data_mem cfg.defaultMessage cfg.fields ⟨[], [], none⟩ d f hmem
        with h1 | h1
    · simp [keysOf] at h1
    · exact hf h1
  · intro f hferr
    rw [standardValidate_fieldErrors cfg d] at hferr
    have hnone := runFields_truthy_not_in_data cfg.defaultMessage cfg.fields
      ⟨[], [], none⟩ d hnd (fun _ _ => rfl) (fun _ _ => ⟨rfl, rfl⟩) f hferr
    rw [hstrict]
    dsimp only
    apply objAssign_get_of_not_mem
    rw [hsdata]
    exact (alistLookup_eq_none_iff _ _).mp hnone
  · intro f v hfv
    rw [hstrict]
    dsimp only
    apply objAssign_get_of_lookup_some _ _ _ _ _ hfv
    rw [hsdata]
    exact runFields_data_nodup cfg.defaultMessage cfg.fields ⟨[], [], none⟩ d
      (by simp [keysOf])

/-- Claim C9, witness: under loose mode, the unvalidated field `b`
retains its raw value. -/
theorem c9_witness :
    (standardValidate looseCoerceCfg rawAInput).data.get "b" = rawAInput.get "b" :=
  (c9_loose_amended looseCoerceCfg rawAInput rfl (by decide)).2.1 "b" (by decide)

/-- Claim C10: a field validator returning the empty string is treated
as a pass by the standard adaptor: no error is recorded at that step
and the chain continues with the next validator on the (possibly
mutated) snapshot — exactly as for a validator returning null,
undefined, or false. -/
theorem c10_empty_string_is_pass (dm : String → String) (field : String)
    (v : Validator) (vs : List Validator) (d dOut : JSObj) (r : JSVal)
    (hv : v d = (VOut.ret r, dOut))
    (hr : r = JSVal.vStr "" ∨ r = JSVal.vNull ∨ r = JSVal.vBool false) :
    runFieldChain dm field (v :: vs) d = runFieldChain dm field vs dOut := by
  simp only [runFieldChain]
  rw [hv]
  rcases hr with h | h | h <;> subst h <;> simp [JSVal.truthy]

/-- Claim C10, witness: dropping an empty-string-returning head
validator leaves the chain's result unchanged. -/
theorem c10_witness :
    runFieldChain defaultMessageDefault "a" [emptyStrValidator, strXValidator] rawAInput =
      runFieldChain defaultMessageDefault "a" [strXValidator] rawAInput :=
  c10_empty_string_is_pass defaultMessageDefault "a" emptyStrValidator [strXValidator]
    rawAInput rawAInput (JSVal.vStr "") rfl (Or.inl rfl)
